import Mathlib

/-!
Verification of the scoring engine and simulated portfolio ledger of
`src/trading_bot.py` (class `SimpleAITradingBot`).

The Python code is shallowly embedded: Python dict values that may appear in
a pair-data record become the inductive type `PyVal`; Python exceptions become
`Except PyErr`; Python floats become exact rationals `ℚ`; the wall clock
(`datetime.now()`) becomes an explicit `now : ℚ` parameter (seconds since
epoch for the scoring engine, an opaque timestamp value for the ledger).
-/

/-- Python exception classes that the embedded code can raise. -/
inductive PyErr where
  | attributeError
  | typeError
  | valueError
  | zeroDivisionError
deriving Repr, DecidableEq

/-- A Python value as it may occur inside a pair-data record: a float/int,
a string, a (string-keyed) dict, or `None`. -/
inductive PyVal where
  | num (q : ℚ)
  | str (s : String)
  | dict (entries : List (String × PyVal))
  | none

/-- A pair-data record: the top-level argument of `analyze_memecoin`, a
string-keyed Python dict. -/
abbrev PyDict := List (String × PyVal)

/-- First-match association-list lookup (Python dict keys are unique, so the
first match is the only one). -/
def lookupKey {β : Type} (ps : List (String × β)) (k : String) : Option β :=
  match ps with
  | [] => Option.none
  | (k1, v) :: t => if k1 = k then some v else lookupKey t k

/-- `d.get(k, default)` on the top-level record: total, like Python `dict.get`. -/
def dictGet (pd : PyDict) (k : String) (d : PyVal) : PyVal :=
  (lookupKey pd k).getD d

/-- `v.get(k, default)` on an arbitrary value: raises `AttributeError` when
`v` is not a dict (Python: a float, string or `None` has no `.get`). -/
def pyGet (v : PyVal) (k : String) (d : PyVal) : Except PyErr PyVal :=
  match v with
  | .dict es => .ok (dictGet es k d)
  | _ => .error .attributeError

/-- `float(v)`: a number converts to itself; a dict or `None` raises
`TypeError`; a string raises `ValueError`.  (Python parses numeric strings;
that case is not modelled — no record considered here carries one.) -/
def pyFloat (v : PyVal) : Except PyErr ℚ :=
  match v with
  | .num q => .ok q
  | .str _ => .error .valueError
  | _ => .error .typeError

/-- ASCII lower-casing of one character, as Python `str.lower` acts on the
ASCII range (the fixed keyword list is pure ASCII). -/
def charLower (c : Char) : Char :=
  if 'A' ≤ c ∧ c ≤ 'Z' then Char.ofNat (c.toNat + 32) else c

/-- Python `s.lower()` on a string, modelled for the ASCII range. -/
def lowerStr (s : String) : String :=
  String.mk (s.data.map charLower)

/-- `v.lower()`: raises `AttributeError` unless `v` is a string. -/
def pyLower (v : PyVal) : Except PyErr String :=
  match v with
  | .str s => .ok (lowerStr s)
  | _ => .error .attributeError

/-- Python truthiness of a value (`if pair_created_at:`). -/
def pyTruthy (v : PyVal) : Bool :=
  match v with
  | .num q => decide (q ≠ 0)
  | .str s => decide (s ≠ "")
  | .dict es => !es.isEmpty
  | .none => false

/-- Substring containment, `indicator in symbol` on Python strings. -/
def strContains (s pat : String) : Bool :=
  decide (pat.toList <:+: s.toList)

/-- Python float division: raises `ZeroDivisionError` on a zero denominator. -/
def pydiv (a b : ℚ) : Except PyErr ℚ :=
  if b = 0 then .error .zeroDivisionError else .ok (a / b)

/-- A reason entry appended to `analysis['reasons']`.  The source appends
formatted strings; each constructor stands for one of the four fixed format
strings (`goodLiquidity` carries the liquidity amount interpolated into
`"Good liquidity: $..."`), and `analysisError` for the
`f"Analysis error: {str(e)}"` string of the top-level handler. -/
inductive Reason where
  | goodLiquidity (liquidity : ℚ)
  | strongMomentum
  | highVolume
  | freshToken
  | analysisError (e : PyErr)
deriving Repr, DecidableEq

/-- The dict returned by `analyze_memecoin`. -/
structure Analysis where
  score : ℚ
  decision : String
  confidence : ℚ
  reasons : List Reason
deriving Repr, DecidableEq

/-- `float(pair_data.get('liquidity', {}).get('usd', 0))` — the only
fallible step of the liquidity analysis (line 32). -/
def liquidityE (pd : PyDict) : Except PyErr ℚ := do
  let lv ← pyGet (dictGet pd "liquidity" (.dict [])) "usd" (.num 0)
  pyFloat lv

/-- `_calculate_liquidity_score` (lines 74-85). -/
def calculate_liquidity_score (liquidity : ℚ) : ℚ :=
  if liquidity ≥ 50000 then 1
  else if liquidity ≥ 25000 then 8/10
  else if liquidity ≥ 10000 then 6/10
  else if liquidity ≥ 5000 then 4/10
  else 2/10

/-- The body of `_calculate_price_momentum`'s `try:` block: `.get('h24', 0)`
on a non-dict raises, and comparing a non-number against a float raises
`TypeError`. -/
def momentumE (price_change : PyVal) : Except PyErr ℚ := do
  let h24 ← pyGet price_change "h24" (.num 0)
  match h24 with
  | .num q =>
      pure (if q > 1/2 then 9/10
            else if q > 1/5 then 7/10
            else if q > 0 then 1/2
            else if q > -(1/10) then 3/10
            else 1/10)
  | _ => throw .typeError

/-- `_calculate_price_momentum` (lines 87-104): any fault inside the helper
is caught locally and degrades to `0.5`. -/
def calculate_price_momentum (pd : PyDict) : ℚ :=
  match momentumE (dictGet pd "priceChange" (.dict [])) with
  | .ok r => r
  | .error _ => 1/2

/-- The body of `_analyze_volume`'s `try:` block. -/
def volumeE (volume : PyVal) : Except PyErr ℚ := do
  let h24 ← pyGet volume "h24" (.num 0)
  match h24 with
  | .num q =>
      pure (if q > 1000000 then 1
            else if q > 500000 then 8/10
            else if q > 100000 then 6/10
            else if q > 50000 then 4/10
            else 2/10)
  | _ => throw .typeError

/-- `_analyze_volume` (lines 106-123): any fault degrades to `0.3`. -/
def analyze_volume (pd : PyDict) : ℚ :=
  match volumeE (dictGet pd "volume" (.dict [])) with
  | .ok r => r
  | .error _ => 3/10

/-- `_analyze_token_age` (lines 125-143).  `now` is the current time in
epoch seconds; `pairCreatedAt` is epoch milliseconds.  A missing or falsy
timestamp, or a non-numeric one (whose division by 1000 raises `TypeError`,
caught locally), yields the default `0.5`. -/
def analyze_token_age (now : ℚ) (pd : PyDict) : ℚ :=
  let v := dictGet pd "pairCreatedAt" .none
  if pyTruthy v then
    match v with
    | .num q =>
        let age_hours := (now - q / 1000) / 3600
        if age_hours ≤ 1 then 1
        else if age_hours ≤ 6 then 8/10
        else if age_hours ≤ 24 then 6/10
        else 3/10
    | _ => 1/2
  else 1/2

/-- The fixed keyword list of `_estimate_social_presence`. -/
def social_indicators : List String :=
  ["elon", "moon", "doge", "shib", "pepe", "wojak"]

/-- `_estimate_social_presence` (lines 145-158): has no local handler, so a
non-dict `baseToken` or a non-string `symbol`/`name` raises out of it. -/
def estimate_social_presence (pd : PyDict) : Except PyErr ℚ := do
  let base_token := dictGet pd "baseToken" (.dict [])
  let symv ← pyGet base_token "symbol" (.str "")
  let symbol ← pyLower symv
  let namev ← pyGet base_token "name" (.str "")
  let name ← pyLower namev
  let hits := (social_indicators.filter
    (fun ind => strContains symbol ind || strContains name ind)).length
  pure (min 1 ((hits : ℚ) * (2/10)))

/-- The body of `analyze_memecoin`'s `try:` block (lines 30-67).  On a fault
the `.error` side carries the exception together with the analysis dict as
mutated so far (score accumulated up to the fault, decision still `'HOLD'`,
confidence still `0`). -/
def analyzeCore (now : ℚ) (pd : PyDict) : Except (PyErr × Analysis) Analysis :=
  let a0 : Analysis := { score := 0, decision := "HOLD", confidence := 0, reasons := [] }
  match liquidityE pd with
  | .error e => .error (e, a0)
  | .ok liquidity =>
    let ls := calculate_liquidity_score liquidity
    let a1 := { a0 with
      score := a0.score + ls * (3/10)
      reasons := a0.reasons ++ (if ls > 7/10 then [Reason.goodLiquidity liquidity] else []) }
    let ms := calculate_price_momentum pd
    let a2 := { a1 with
      score := a1.score + ms * (25/100)
      reasons := a1.reasons ++ (if ms > 7/10 then [Reason.strongMomentum] else []) }
    let vs := analyze_volume pd
    let a3 := { a2 with
      score := a2.score + vs * (2/10)
      reasons := a2.reasons ++ (if vs > 6/10 then [Reason.highVolume] else []) }
    let gs := analyze_token_age now pd
    let a4 := { a3 with
      score := a3.score + gs * (15/100)
      reasons := a3.reasons ++ (if gs > 8/10 then [Reason.freshToken] else []) }
    match estimate_social_presence pd with
    | .error e => .error (e, a4)
    | .ok ss =>
      let a5 := { a4 with score := a4.score + ss * (1/10) }
      let a6 := { a5 with confidence := a5.score }
      .ok { a6 with decision :=
              if a6.score ≥ 7/10 then "BUY"
              else if a6.score ≤ 3/10 then "SELL"
              else "HOLD" }

/-- `analyze_memecoin` (lines 21-72): the top-level `except` appends the
error reason to the partially built analysis and returns it. -/
def analyze_memecoin (now : ℚ) (pd : PyDict) : Analysis :=
  match analyzeCore now pd with
  | .ok a => a
  | .error (e, a) => { a with reasons := a.reasons ++ [Reason.analysisError e] }

/-- One entry of `self.portfolio['positions']` (lines 189-193). -/
structure Position where
  shares : ℚ
  cost_basis : ℚ
  entry_time : ℚ
deriving Repr, DecidableEq

/-- A dict appended to `self.trade_history` (lines 195-202, 219-226). -/
structure TradeRecord where
  symbol : String
  action : String
  shares : ℚ
  price : ℚ
  value : ℚ
  timestamp : ℚ
deriving Repr, DecidableEq

/-- The state of one `SimpleAITradingBot` instance: `self.portfolio`
(`cash`, `positions`, `total_value`), `self.trade_history` and
`self.risk_per_trade` (lines 12-19). -/
structure TradingBot where
  cash : ℚ
  positions : List (String × Position)
  total_value : ℚ
  trade_history : List TradeRecord
  risk_per_trade : ℚ
deriving Repr, DecidableEq

/-- `__init__(self, initial_capital=1000)` (lines 12-19). -/
def mkBot (initial_capital : ℚ) : TradingBot :=
  { cash := initial_capital
    positions := []
    total_value := initial_capital
    trade_history := []
    risk_per_trade := 2/100 }

/-- The outcome of `execute_trade`: a returned trade-record dict, the
`{'error': ...}` dict, or an uncaught Python exception. -/
inductive TradeResult where
  | record (r : TradeRecord)
  | error (msg : String)
  | raised (e : PyErr)
deriving Repr, DecidableEq

/-- In-place mutation of the position dict stored under a key
(`self.portfolio['positions'][symbol][...] = ...`). -/
def updatePos (ps : List (String × Position)) (sym : String) (f : Position → Position) :
    List (String × Position) :=
  match ps with
  | [] => []
  | (k, v) :: t => if k = sym then (k, f v) :: t else (k, v) :: updatePos t sym f

/-- `calculate_position_size` (lines 160-172).  The final division
`max_position_value / price` is Python float division, which raises
`ZeroDivisionError` when `price = 0` (the `price_risk == 0` guard only
protects the first division). -/
def calculate_position_size (b : TradingBot) (symbol : String) (price stop_loss : ℚ) :
    Except PyErr ℚ := do
  let risk_amount := b.cash * b.risk_per_trade
  let price_risk := |price - stop_loss|
  if price_risk = 0 then
    return 0
  let shares ← pydiv risk_amount price_risk
  let max_position_value := b.cash * (1/10)
  let max_shares ← pydiv max_position_value price
  return min shares max_shares

/-- `execute_trade` (lines 174-230).  Returns the bot state after the call
together with the call's outcome; on an uncaught exception (the
`ZeroDivisionError` of the volume-weighted-average line when the merged
share count is zero) the returned state carries the mutations already
performed (cash deducted, shares merged) exactly as the Python object would. -/
def execute_trade (now : ℚ) (b : TradingBot) (symbol decision : String) (price amount : ℚ) :
    TradingBot × TradeResult :=
  let trade_value := amount * price
  if decision = "BUY" ∧ trade_value ≤ b.cash then
    let b1 := { b with cash := b.cash - trade_value }
    match lookupKey b1.positions symbol with
    | some pos =>
        let newShares := pos.shares + amount
        let ps1 := updatePos b1.positions symbol (fun p => { p with shares := p.shares + amount })
        if newShares = 0 then
          ({ b1 with positions := ps1 }, .raised .zeroDivisionError)
        else
          let newCb := (pos.cost_basis * (newShares - amount) + trade_value) / newShares
          let ps2 := updatePos ps1 symbol (fun p => { p with cost_basis := newCb })
          let tr : TradeRecord :=
            { symbol := symbol, action := "BUY", shares := amount, price := price
              value := trade_value, timestamp := now }
          ({ b1 with positions := ps2, trade_history := b1.trade_history ++ [tr] }, .record tr)
    | none =>
        let ps := b1.positions ++ [(symbol, { shares := amount, cost_basis := price, entry_time := now })]
        let tr : TradeRecord :=
          { symbol := symbol, action := "BUY", shares := amount, price := price
            value := trade_value, timestamp := now }
        ({ b1 with positions := ps, trade_history := b1.trade_history ++ [tr] }, .record tr)
  else if decision = "SELL" then
    match lookupKey b.positions symbol with
    | some pos =>
        let amt := if amount > pos.shares then pos.shares else amount
        let tv2 := amt * price
        let newShares := pos.shares - amt
        let ps1 :=
          if newShares = 0 then b.positions.filter (fun kv => kv.1 ≠ symbol)
          else updatePos b.positions symbol (fun p => { p with shares := p.shares - amt })
        let tr : TradeRecord :=
          { symbol := symbol, action := "SELL", shares := amt, price := price
            value := tv2, timestamp := now }
        ({ b with
           cash := b.cash + tv2
           positions := ps1
           trade_history := b.trade_history ++ [tr] }, .record tr)
    | none => (b, .error "Trade execution failed")
  else
    (b, .error "Trade execution failed")

/-- `get_portfolio_value` (lines 232-238). -/
def get_portfolio_value (b : TradingBot) : ℚ :=
  b.positions.foldl (fun total kv => total + kv.2.shares * kv.2.cost_basis) b.cash

/-- One call to `execute_trade`, for describing call sequences. -/
structure Cmd where
  now : ℚ
  symbol : String
  decision : String
  price : ℚ
  amount : ℚ
deriving Repr, DecidableEq

/-- The bot state after a sequence of `execute_trade` calls. -/
def runTrades (b : TradingBot) : List Cmd → TradingBot
  | [] => b
  | c :: cs => runTrades (execute_trade c.now b c.symbol c.decision c.price c.amount).1 cs

lemma foldl_add_sum {α : Type} (f : α → ℚ) (init : ℚ) (l : List α) :
    l.foldl (fun t x => t + f x) init = init + (l.map f).sum := by
  induction l generalizing init with
  | nil => simp
  | cons x t ih => simp [ih, add_assoc]

/-- C9: `get_portfolio_value` returns exactly `cash + Σ shares × costBasis`
over the open positions; it takes no price argument and, being a pure
function of the state, mutates nothing. -/
theorem get_portfolio_value_eq (b : TradingBot) :
    get_portfolio_value b =
      b.cash + (b.positions.map (fun kv => kv.2.shares * kv.2.cost_basis)).sum := by
  unfold get_portfolio_value
  exact foldl_add_sum _ _ _

/-- C2: a BUY whose value exceeds the cash balance, a SELL of a symbol not
held, or any decision other than `'BUY'`/`'SELL'`, returns the error dict,
leaves the whole ledger state (cash, positions, trade history) unchanged,
and raises nothing. -/
theorem execute_trade_rejected_noop (now : ℚ) (b : TradingBot) (symbol decision : String)
    (price amount : ℚ)
    (h : (decision = "BUY" ∧ b.cash < amount * price) ∨
         (decision = "SELL" ∧ lookupKey b.positions symbol = Option.none) ∨
         (decision ≠ "BUY" ∧ decision ≠ "SELL")) :
    execute_trade now b symbol decision price amount =
      (b, TradeResult.error "Trade execution failed") := by
  unfold execute_trade
  rcases h with ⟨hd, hc⟩ | ⟨hd, hp⟩ | ⟨h1, h2⟩
  · subst hd
    rw [if_neg (by simp [not_le.mpr hc]), if_neg (by simp)]
  · subst hd
    rw [if_neg (by simp), if_pos rfl, hp]
  · rw [if_neg (by simp [h1]), if_neg h2]

/-- C2 witness: with cash 100, `execute_trade("Y", "BUY", 10, 1000)` is
rejected and the state is returned unchanged. -/
theorem execute_trade_rejected_noop_witness :
    execute_trade 0 (mkBot 100) "Y" "BUY" 10 1000 =
      (mkBot 100, TradeResult.error "Trade execution failed") :=
  execute_trade_rejected_noop 0 (mkBot 100) "Y" "BUY" 10 1000
    (Or.inl ⟨rfl, by norm_num [mkBot]⟩)

/-- C3 counterexample: with the default 2% risk and cash 1000, calling
`calculate_position_size` with `price = 0` and `stop_loss = 1` raises
`ZeroDivisionError` (the `price_risk == 0` guard protects only the first
division; `max_position_value / price` divides by the price itself), so the
operation does not "never fail". -/
theorem calculate_position_size_price_zero_raises :
    calculate_position_size (mkBot 1000) "X" 0 1 = Except.error PyErr.zeroDivisionError := by
  norm_num [calculate_position_size, pydiv, mkBot, Bind.bind, Except.bind,
    pure, Except.pure]

/-- C3 amended: for a bot with the constructor's `risk_per_trade = 0.02`,
`calculate_position_size` returns 0 when `|price − stopLoss| = 0`; when
`|price − stopLoss| ≠ 0` it returns
`min (cash × 0.02 / |price − stopLoss|) (cash × 0.10 / price)` provided
`price ≠ 0`, and raises `ZeroDivisionError` when `price = 0`.  It never
mutates any ledger state (it is a pure function of `b`). -/
theorem calculate_position_size_spec (b : TradingBot) (symbol : String) (price stop_loss : ℚ)
    (hrisk : b.risk_per_trade = 2/100) :
    (|price - stop_loss| = 0 →
      calculate_position_size b symbol price stop_loss = Except.ok 0) ∧
    (|price - stop_loss| ≠ 0 → price ≠ 0 →
      calculate_position_size b symbol price stop_loss =
        Except.ok (min (b.cash * (2/100) / |price - stop_loss|) (b.cash * (1/10) / price))) ∧
    (|price - stop_loss| ≠ 0 → price = 0 →
      calculate_position_size b symbol price stop_loss =
        Except.error PyErr.zeroDivisionError) := by
  refine ⟨fun h1 => ?_, fun h1 h2 => ?_, fun h1 h2 => ?_⟩
  · simp [calculate_position_size, h1, pure, Except.pure]
  · simp [calculate_position_size, pydiv, h1, h2, hrisk, Bind.bind, Except.bind,
      pure, Except.pure]
  · subst h2
    have h3 : stop_loss ≠ 0 := by simpa using h1
    simp [calculate_position_size, pydiv, h3, hrisk, Bind.bind, Except.bind,
      pure, Except.pure]

/-- C3 witness: cash 1000, price 10, stop-loss 8 gives
`min (20/2) (100/10) = 10` shares. -/
theorem calculate_position_size_spec_witness :
    calculate_position_size (mkBot 1000) "X" 10 8 = Except.ok 10 := by
  have h := (calculate_position_size_spec (mkBot 1000) "X" 10 8 rfl).2.1
    (by norm_num) (by norm_num)
  rw [h]
  norm_num [mkBot]

lemma calculate_price_momentum_eq (pd : PyDict) (r : ℚ)
    (h : momentumE (dictGet pd "priceChange" (PyVal.dict [])) = Except.ok r) :
    calculate_price_momentum pd = r := by
  rw [calculate_price_momentum, h]

lemma analyze_volume_eq (pd : PyDict) (r : ℚ)
    (h : volumeE (dictGet pd "volume" (PyVal.dict [])) = Except.ok r) :
    analyze_volume pd = r := by
  rw [analyze_volume, h]

lemma analyze_token_age_absent (now : ℚ) (pd : PyDict)
    (h : dictGet pd "pairCreatedAt" PyVal.none = PyVal.none) :
    analyze_token_age now pd = 1/2 := by
  rw [analyze_token_age, h]
  rfl

/-- The shape of the analysis dict on the fault-free path: its decision is
the threshold rule applied to its own score, and confidence duplicates the
score. -/
lemma analyzeCore_ok_shape (now : ℚ) (pd : PyDict) (a : Analysis)
    (h : analyzeCore now pd = Except.ok a) :
    ∃ s rs, a = { score := s
                  decision := if s ≥ 7/10 then "BUY" else if s ≤ 3/10 then "SELL" else "HOLD"
                  confidence := s
                  reasons := rs } := by
  cases hl : liquidityE pd with
  | error e => rw [analyzeCore] at h; simp [hl] at h
  | ok liquidity =>
      cases hs : estimate_social_presence pd with
      | error e => rw [analyzeCore] at h; simp [hl, hs] at h
      | ok ss =>
          rw [analyzeCore] at h
          simp only [hl, hs, Except.ok.injEq] at h
          exact ⟨_, _, h.symm⟩

/-- The shape of the analysis dict carried by a fault: decision and
confidence still hold their initial values. -/
lemma analyzeCore_error_shape (now : ℚ) (pd : PyDict) (e : PyErr) (a : Analysis)
    (h : analyzeCore now pd = Except.error (e, a)) :
    a.decision = "HOLD" ∧ a.confidence = 0 := by
  cases hl : liquidityE pd with
  | error e2 =>
      rw [analyzeCore] at h
      simp only [hl, Except.error.injEq, Prod.mk.injEq] at h
      rw [← h.2]
      exact ⟨rfl, rfl⟩
  | ok liquidity =>
      cases hs : estimate_social_presence pd with
      | error e2 =>
          rw [analyzeCore] at h
          simp only [hl, hs, Except.error.injEq, Prod.mk.injEq] at h
          rw [← h.2]
          exact ⟨rfl, rfl⟩
      | ok ss =>
          rw [analyzeCore] at h
          simp [hl, hs] at h

/-- C1: `analyze_memecoin` never raises.  On a fault-free record it returns
the fully scored analysis; on a record whose liquidity step faults it
returns score 0 with the error reason as the only reason; on a record whose
social-presence step faults (the only other escape point) it returns the
partial weighted sum of the four sub-scores computed before the fault, the
social sub-score contributing 0, with the error reason appended last. -/
theorem analyze_memecoin_fault_tolerant (now : ℚ) (pd : PyDict) :
    (∃ a, analyzeCore now pd = Except.ok a ∧ analyze_memecoin now pd = a) ∨
    (∃ e, liquidityE pd = Except.error e ∧
      analyze_memecoin now pd =
        { score := 0, decision := "HOLD", confidence := 0,
          reasons := [Reason.analysisError e] }) ∨
    (∃ liquidity e, liquidityE pd = Except.ok liquidity ∧
      estimate_social_presence pd = Except.error e ∧
      (analyze_memecoin now pd).score =
        calculate_liquidity_score liquidity * (3/10) + calculate_price_momentum pd * (25/100) +
        analyze_volume pd * (2/10) + analyze_token_age now pd * (15/100) + 0 * (1/10) ∧
      ∃ rs, (analyze_memecoin now pd).reasons = rs ++ [Reason.analysisError e]) := by
  cases hl : liquidityE pd with
  | error e =>
      refine Or.inr (Or.inl ⟨e, rfl, ?_⟩)
      rw [analyze_memecoin, analyzeCore]
      simp [hl]
  | ok liquidity =>
      cases hs : estimate_social_presence pd with
      | error e =>
          refine Or.inr (Or.inr ⟨liquidity, e, rfl, rfl, ?_, ?_⟩)
          · rw [analyze_memecoin, analyzeCore]
            simp only [hl, hs]
            ring_nf
          · rw [analyze_memecoin, analyzeCore]
            simp only [hl, hs]
            exact ⟨_, rfl⟩
      | ok ss =>
          have hok : analyzeCore now pd = Except.ok (analyze_memecoin now pd) := by
            rw [analyze_memecoin]
            cases hcore : analyzeCore now pd with
            | ok a => rfl
            | error pa =>
                rw [analyzeCore] at hcore
                simp [hl, hs] at hcore
          exact Or.inl ⟨analyze_memecoin now pd, hok, rfl⟩

/-- The threshold rule, as an iff characterisation of the decision string. -/
lemma decision_rule_iff (s : ℚ) (d : String)
    (hd : d = if s ≥ 7/10 then "BUY" else if s ≤ 3/10 then "SELL" else "HOLD") :
    (d = "BUY" ↔ s ≥ 7/10) ∧ (d = "SELL" ↔ s ≤ 3/10) ∧
    (d = "HOLD" ↔ 3/10 < s ∧ s < 7/10) := by
  subst hd
  split_ifs with h1 h2
  · exact ⟨iff_of_true rfl h1, iff_of_false (by decide) (by intro hc; linarith),
      iff_of_false (by decide) (by intro hc; linarith [hc.2])⟩
  · exact ⟨iff_of_false (by decide) h1, iff_of_true rfl h2,
      iff_of_false (by decide) (by intro hc; linarith [hc.1])⟩
  · exact ⟨iff_of_false (by decide) h1, iff_of_false (by decide) h2,
      iff_of_true rfl ⟨lt_of_not_ge h2, lt_of_not_ge h1⟩⟩

/-- C6 amended: for every record on which the analysis completes without an
escaping fault, the returned decision is the threshold rule applied to the
final score: `BUY` iff `score ≥ 0.7`, `SELL` iff `score ≤ 0.3`, `HOLD`
otherwise, boundaries inclusive toward BUY/SELL. -/
theorem analyze_memecoin_decision_rule (now : ℚ) (pd : PyDict) (a : Analysis)
    (h : analyzeCore now pd = Except.ok a) :
    analyze_memecoin now pd = a ∧
    (a.decision = "BUY" ↔ a.score ≥ 7/10) ∧
    (a.decision = "SELL" ↔ a.score ≤ 3/10) ∧
    (a.decision = "HOLD" ↔ 3/10 < a.score ∧ a.score < 7/10) := by
  refine ⟨by rw [analyze_memecoin, h], ?_⟩
  obtain ⟨s, rs, rfl⟩ := analyzeCore_ok_shape now pd a h
  exact decision_rule_iff s _ rfl

/-- C7 amended: on every record on which the analysis completes without an
escaping fault, the returned confidence equals the returned score. -/
theorem analyze_memecoin_confidence_eq_score (now : ℚ) (pd : PyDict) (a : Analysis)
    (h : analyzeCore now pd = Except.ok a) :
    (analyze_memecoin now pd).confidence = (analyze_memecoin now pd).score := by
  rw [analyze_memecoin, h]
  obtain ⟨s, rs, rfl⟩ := analyzeCore_ok_shape now pd a h
  rfl

/-- C10: whenever a computation fault escapes to the top-level handler of
`analyze_memecoin`, the returned analysis keeps the initial
`decision = 'HOLD'` and `confidence = 0`, whatever partial score was
accumulated. -/
theorem analyze_memecoin_fault_keeps_hold (now : ℚ) (pd : PyDict) (e : PyErr) (a : Analysis)
    (h : analyzeCore now pd = Except.error (e, a)) :
    (analyze_memecoin now pd).decision = "HOLD" ∧
    (analyze_memecoin now pd).confidence = 0 := by
  rw [analyze_memecoin, h]
  exact analyzeCore_error_shape now pd e a h

/-- A record whose first four sub-scores are high (partial weighted sum 0.8)
and whose `baseToken` is a number, so the social-presence step raises
`AttributeError` out to the top-level handler. -/
def pdSocialFault : PyDict :=
  [("liquidity", .dict [("usd", .num 60000)]),
   ("priceChange", .dict [("h24", .num (6/10))]),
   ("volume", .dict [("h24", .num 2000000)]),
   ("baseToken", .num 5)]

lemma analyzeCore_pdSocialFault :
    analyzeCore 0 pdSocialFault =
      Except.error (PyErr.attributeError,
        { score := 4/5, decision := "HOLD", confidence := 0,
          reasons := [Reason.goodLiquidity 60000, Reason.strongMomentum,
                      Reason.highVolume] }) := by
  have hl : liquidityE pdSocialFault = Except.ok 60000 := by
    simp [liquidityE, pdSocialFault, dictGet, lookupKey, pyGet, pyFloat,
      Bind.bind, Except.bind]
  have hm : calculate_price_momentum pdSocialFault = 9/10 := by
    apply calculate_price_momentum_eq
    have hpc : dictGet pdSocialFault "priceChange" (PyVal.dict []) =
        PyVal.dict [("h24", PyVal.num (6/10))] := by
      simp [pdSocialFault, dictGet, lookupKey]
    rw [hpc]
    simp only [momentumE, pyGet, dictGet, lookupKey, Bind.bind, Except.bind,
      pure, Except.pure]
    norm_num
  have hv : analyze_volume pdSocialFault = 1 := by
    apply analyze_volume_eq
    have hvol : dictGet pdSocialFault "volume" (PyVal.dict []) =
        PyVal.dict [("h24", PyVal.num 2000000)] := by
      simp [pdSocialFault, dictGet, lookupKey]
    rw [hvol]
    simp only [volumeE, pyGet, dictGet, lookupKey, Bind.bind, Except.bind,
      pure, Except.pure]
    norm_num
  have ha : analyze_token_age 0 pdSocialFault = 1/2 := by
    apply analyze_token_age_absent
    simp [pdSocialFault, dictGet, lookupKey]
  have hs : estimate_social_presence pdSocialFault =
      Except.error PyErr.attributeError := by
    simp [estimate_social_presence, pdSocialFault, dictGet, lookupKey, pyGet,
      pyLower, Bind.bind, Except.bind, pure, Except.pure]
  have hls : calculate_liquidity_score 60000 = 1 := by
    norm_num [calculate_liquidity_score]
  rw [analyzeCore]
  simp only [hl, hm, hv, ha, hs, hls]
  norm_num

/-- C6 counterexample: on `pdSocialFault` the analysis faults after four
sub-scores, leaving a final score of 0.8 (≥ 0.7) with decision `'HOLD'`, so
"decision = 'BUY' iff score ≥ 0.7" is false for this input record. -/
theorem analyze_memecoin_decision_rule_cex :
    7/10 ≤ (analyze_memecoin 0 pdSocialFault).score ∧
    (analyze_memecoin 0 pdSocialFault).decision ≠ "BUY" := by
  rw [analyze_memecoin, analyzeCore_pdSocialFault]
  exact ⟨by norm_num, by decide⟩

/-- A record like `pdSocialFault` but whose fault comes from a non-string
`name` inside `baseToken` (the `symbol` lookup defaults to `""`). -/
def pdNameFault : PyDict :=
  [("liquidity", .dict [("usd", .num 60000)]),
   ("priceChange", .dict [("h24", .num (6/10))]),
   ("volume", .dict [("h24", .num 2000000)]),
   ("baseToken", .dict [("name", .num 2)])]

lemma analyzeCore_pdNameFault :
    analyzeCore 0 pdNameFault =
      Except.error (PyErr.attributeError,
        { score := 4/5, decision := "HOLD", confidence := 0,
          reasons := [Reason.goodLiquidity 60000, Reason.strongMomentum,
                      Reason.highVolume] }) := by
  have hl : liquidityE pdNameFault = Except.ok 60000 := by
    simp [liquidityE, pdNameFault, dictGet, lookupKey, pyGet, pyFloat,
      Bind.bind, Except.bind]
  have hm : calculate_price_momentum pdNameFault = 9/10 := by
    apply calculate_price_momentum_eq
    have hpc : dictGet pdNameFault "priceChange" (PyVal.dict []) =
        PyVal.dict [("h24", PyVal.num (6/10))] := by
      simp [pdNameFault, dictGet, lookupKey]
    rw [hpc]
    simp only [momentumE, pyGet, dictGet, lookupKey, Bind.bind, Except.bind,
      pure, Except.pure]
    norm_num
  have hv : analyze_volume pdNameFault = 1 := by
    apply analyze_volume_eq
    have hvol : dictGet pdNameFault "volume" (PyVal.dict []) =
        PyVal.dict [("h24", PyVal.num 2000000)] := by
      simp [pdNameFault, dictGet, lookupKey]
    rw [hvol]
    simp only [volumeE, pyGet, dictGet, lookupKey, Bind.bind, Except.bind,
      pure, Except.pure]
    norm_num
  have ha : analyze_token_age 0 pdNameFault = 1/2 := by
    apply analyze_token_age_absent
    simp [pdNameFault, dictGet, lookupKey]
  have hs : estimate_social_presence pdNameFault =
      Except.error PyErr.attributeError := by
    simp [estimate_social_presence, pdNameFault, dictGet, lookupKey, pyGet,
      pyLower, Bind.bind, Except.bind, pure, Except.pure]
  have hls : calculate_liquidity_score 60000 = 1 := by
    norm_num [calculate_liquidity_score]
  rw [analyzeCore]
  simp only [hl, hm, hv, ha, hs, hls]
  norm_num

/-- C7 counterexample: on `pdNameFault` the analysis faults in the social
step with an accumulated score of 0.8, while confidence keeps its initial 0,
so "confidence equals score" is false for this input record. -/
theorem analyze_memecoin_confidence_cex :
    (analyze_memecoin 0 pdNameFault).confidence ≠ (analyze_memecoin 0 pdNameFault).score := by
  rw [analyze_memecoin, analyzeCore_pdNameFault]
  norm_num

/-- A clean record that scores 0.82 with no fault: high liquidity, momentum
and volume, no creation timestamp, and one social keyword hit. -/
def pdClean : PyDict :=
  [("liquidity", .dict [("usd", .num 60000)]),
   ("priceChange", .dict [("h24", .num (6/10))]),
   ("volume", .dict [("h24", .num 2000000)]),
   ("baseToken", .dict [("symbol", .str "MOON")])]

lemma analyzeCore_pdClean :
    analyzeCore 0 pdClean =
      Except.ok
        { score := 41/50, decision := "BUY", confidence := 41/50,
          reasons := [Reason.goodLiquidity 60000, Reason.strongMomentum,
                      Reason.highVolume] } := by
  have hl : liquidityE pdClean = Except.ok 60000 := by
    simp [liquidityE, pdClean, dictGet, lookupKey, pyGet, pyFloat,
      Bind.bind, Except.bind]
  have hm : calculate_price_momentum pdClean = 9/10 := by
    apply calculate_price_momentum_eq
    have hpc : dictGet pdClean "priceChange" (PyVal.dict []) =
        PyVal.dict [("h24", PyVal.num (6/10))] := by
      simp [pdClean, dictGet, lookupKey]
    rw [hpc]
    simp only [momentumE, pyGet, dictGet, lookupKey, Bind.bind, Except.bind,
      pure, Except.pure]
    norm_num
  have hv : analyze_volume pdClean = 1 := by
    apply analyze_volume_eq
    have hvol : dictGet pdClean "volume" (PyVal.dict []) =
        PyVal.dict [("h24", PyVal.num 2000000)] := by
      simp [pdClean, dictGet, lookupKey]
    rw [hvol]
    simp only [volumeE, pyGet, dictGet, lookupKey, Bind.bind, Except.bind,
      pure, Except.pure]
    norm_num
  have ha : analyze_token_age 0 pdClean = 1/2 := by
    apply analyze_token_age_absent
    simp [pdClean, dictGet, lookupKey]
  have hlow1 : lowerStr "MOON" = "moon" := by decide
  have hlow2 : lowerStr "" = "" := by decide
  have hfilt : (social_indicators.filter
      (fun ind => strContains "moon" ind || strContains "" ind)) = ["moon"] := by decide
  have hs : estimate_social_presence pdClean = Except.ok (2/10) := by
    have hbt : dictGet pdClean "baseToken" (PyVal.dict []) =
        PyVal.dict [("symbol", PyVal.str "MOON")] := by
      simp [pdClean, dictGet, lookupKey]
    rw [estimate_social_presence, hbt]
    simp [pyGet, dictGet, lookupKey, pyLower, Bind.bind, Except.bind,
      pure, Except.pure, hlow1, hlow2, hfilt]
    norm_num
  have hls : calculate_liquidity_score 60000 = 1 := by
    norm_num [calculate_liquidity_score]
  rw [analyzeCore]
  simp only [hl, hm, hv, ha, hs, hls]
  norm_num

/-- C6 witness: on the clean record the analysis completes, scores 0.82 and
decides `BUY`, in accordance with the threshold rule. -/
theorem analyze_memecoin_decision_rule_witness :
    (analyze_memecoin 0 pdClean).decision = "BUY" ∧
    7/10 ≤ (analyze_memecoin 0 pdClean).score := by
  have h := analyze_memecoin_decision_rule 0 pdClean _ analyzeCore_pdClean
  rw [h.1]
  exact ⟨h.2.1.mpr (by norm_num), by norm_num⟩

lemma analyzeCore_empty :
    analyzeCore 0 ([] : PyDict) =
      Except.ok { score := 1/4, decision := "SELL", confidence := 1/4, reasons := [] } := by
  have hl : liquidityE ([] : PyDict) = Except.ok 0 := by
    simp [liquidityE, dictGet, lookupKey, pyGet, pyFloat, Bind.bind, Except.bind]
  have hm : calculate_price_momentum ([] : PyDict) = 3/10 := by
    apply calculate_price_momentum_eq
    have hpc : dictGet ([] : PyDict) "priceChange" (PyVal.dict []) = PyVal.dict [] := rfl
    rw [hpc]
    simp only [momentumE, pyGet, dictGet, lookupKey, Bind.bind, Except.bind,
      pure, Except.pure]
    norm_num
  have hv : analyze_volume ([] : PyDict) = 2/10 := by
    apply analyze_volume_eq
    have hvol : dictGet ([] : PyDict) "volume" (PyVal.dict []) = PyVal.dict [] := rfl
    rw [hvol]
    simp only [volumeE, pyGet, dictGet, lookupKey, Bind.bind, Except.bind,
      pure, Except.pure]
    norm_num
  have ha : analyze_token_age 0 ([] : PyDict) = 1/2 := by
    apply analyze_token_age_absent
    rfl
  have hlow2 : lowerStr "" = "" := by decide
  have hfilt : (social_indicators.filter (fun ind => strContains "" ind)) = [] := by decide
  have hs : estimate_social_presence ([] : PyDict) = Except.ok 0 := by
    have hbt : dictGet ([] : PyDict) "baseToken" (PyVal.dict []) = PyVal.dict [] := rfl
    rw [estimate_social_presence, hbt]
    simp [pyGet, dictGet, lookupKey, pyLower, Bind.bind, Except.bind,
      pure, Except.pure, hlow2, hfilt]
  have hls : calculate_liquidity_score 0 = 2/10 := by
    norm_num [calculate_liquidity_score]
  rw [analyzeCore]
  simp only [hl, hm, hv, ha, hs, hls]
  norm_num

/-- C7 witness: on the empty record the analysis completes with score 0.25
and the returned confidence equals the returned score. -/
theorem analyze_memecoin_confidence_eq_score_witness :
    (analyze_memecoin 0 ([] : PyDict)).confidence = (analyze_memecoin 0 ([] : PyDict)).score :=
  analyze_memecoin_confidence_eq_score 0 [] _ analyzeCore_empty

/-- A record whose `baseToken.symbol` is a number: `.lower()` raises
`AttributeError` after the first four sub-scores (partial weighted sum 0.8)
were accumulated. -/
def pdNumSymbol : PyDict :=
  [("liquidity", .dict [("usd", .num 60000)]),
   ("priceChange", .dict [("h24", .num (6/10))]),
   ("volume", .dict [("h24", .num 2000000)]),
   ("baseToken", .dict [("symbol", .num 3)])]

lemma analyzeCore_pdNumSymbol :
    analyzeCore 0 pdNumSymbol =
      Except.error (PyErr.attributeError,
        { score := 4/5, decision := "HOLD", confidence := 0,
          reasons := [Reason.goodLiquidity 60000, Reason.strongMomentum,
                      Reason.highVolume] }) := by
  have hl : liquidityE pdNumSymbol = Except.ok 60000 := by
    simp [liquidityE, pdNumSymbol, dictGet, lookupKey, pyGet, pyFloat,
      Bind.bind, Except.bind]
  have hm : calculate_price_momentum pdNumSymbol = 9/10 := by
    apply calculate_price_momentum_eq
    have hpc : dictGet pdNumSymbol "priceChange" (PyVal.dict []) =
        PyVal.dict [("h24", PyVal.num (6/10))] := by
      simp [pdNumSymbol, dictGet, lookupKey]
    rw [hpc]
    simp only [momentumE, pyGet, dictGet, lookupKey, Bind.bind, Except.bind,
      pure, Except.pure]
    norm_num
  have hv : analyze_volume pdNumSymbol = 1 := by
    apply analyze_volume_eq
    have hvol : dictGet pdNumSymbol "volume" (PyVal.dict []) =
        PyVal.dict [("h24", PyVal.num 2000000)] := by
      simp [pdNumSymbol, dictGet, lookupKey]
    rw [hvol]
    simp only [volumeE, pyGet, dictGet, lookupKey, Bind.bind, Except.bind,
      pure, Except.pure]
    norm_num
  have ha : analyze_token_age 0 pdNumSymbol = 1/2 := by
    apply analyze_token_age_absent
    simp [pdNumSymbol, dictGet, lookupKey]
  have hs : estimate_social_presence pdNumSymbol =
      Except.error PyErr.attributeError := by
    have hbt : dictGet pdNumSymbol "baseToken" (PyVal.dict []) =
        PyVal.dict [("symbol", PyVal.num 3)] := by
      simp [pdNumSymbol, dictGet, lookupKey]
    rw [estimate_social_presence, hbt]
    simp [pyGet, dictGet, lookupKey, pyLower, Bind.bind, Except.bind,
      pure, Except.pure]
  have hls : calculate_liquidity_score 60000 = 1 := by
    norm_num [calculate_liquidity_score]
  rw [analyzeCore]
  simp only [hl, hm, hv, ha, hs, hls]
  norm_num

/-- C10 witness: on `pdNumSymbol` (a non-string `baseToken.symbol` making
the social step fail after four sub-scores) the result keeps
`decision = 'HOLD'` and `confidence = 0` although the partial score 0.8 is
well above the BUY threshold. -/
theorem analyze_memecoin_fault_keeps_hold_witness :
    (analyze_memecoin 0 pdNumSymbol).decision = "HOLD" ∧
    (analyze_memecoin 0 pdNumSymbol).confidence = 0 ∧
    7/10 ≤ (analyze_memecoin 0 pdNumSymbol).score := by
  have h := analyze_memecoin_fault_keeps_hold 0 pdNumSymbol _ _ analyzeCore_pdNumSymbol
  refine ⟨h.1, h.2, ?_⟩
  rw [analyze_memecoin, analyzeCore_pdNumSymbol]
  norm_num

lemma lookupKey_updatePos (ps : List (String × Position)) (sym : String)
    (f : Position → Position) :
    lookupKey (updatePos ps sym f) sym = (lookupKey ps sym).map f := by
  induction ps with
  | nil => rfl
  | cons kv t ih =>
      obtain ⟨k, v⟩ := kv
      by_cases hk : k = sym
      · subst hk
        rw [updatePos, if_pos rfl]
        simp [lookupKey]
      · rw [updatePos, if_neg hk]
        simp [lookupKey, hk, ih]

lemma lookupKey_updatePos_ne (ps : List (String × Position)) (sym k : String)
    (f : Position → Position) (hne : k ≠ sym) :
    lookupKey (updatePos ps sym f) k = lookupKey ps k := by
  induction ps with
  | nil => rfl
  | cons kv t ih =>
      obtain ⟨k1, v⟩ := kv
      by_cases hk : k1 = sym
      · subst hk
        rw [updatePos, if_pos rfl]
        have hne2 : k1 ≠ k := fun h => hne h.symm
        rw [lookupKey, if_neg hne2, lookupKey, if_neg hne2]
      · rw [updatePos, if_neg hk]
        by_cases hk2 : k1 = k <;> simp [lookupKey, hk2, ih]

lemma updatePos_updatePos (ps : List (String × Position)) (sym : String)
    (f g : Position → Position) :
    updatePos (updatePos ps sym f) sym g = updatePos ps sym (fun p => g (f p)) := by
  induction ps with
  | nil => rfl
  | cons kv t ih =>
      obtain ⟨k, v⟩ := kv
      by_cases hk : k = sym
      · subst hk
        rw [updatePos, if_pos rfl, updatePos, if_pos rfl, updatePos, if_pos rfl]
      · rw [updatePos, if_neg hk, updatePos, if_neg hk, updatePos, if_neg hk, ih]

lemma keys_updatePos (ps : List (String × Position)) (sym : String)
    (f : Position → Position) :
    (updatePos ps sym f).map Prod.fst = ps.map Prod.fst := by
  induction ps with
  | nil => rfl
  | cons kv t ih =>
      obtain ⟨k, v⟩ := kv
      by_cases hk : k = sym
      · subst hk
        rw [updatePos, if_pos rfl]
        simp
      · rw [updatePos, if_neg hk]
        simp [ih]

lemma forall_mem_updatePos {P : String × Position → Prop}
    (ps : List (String × Position)) (sym : String) (f : Position → Position)
    (hp : ∀ kv ∈ ps, P kv)
    (hf : ∀ kv ∈ ps, kv.1 = sym → P (kv.1, f kv.2)) :
    ∀ kv ∈ updatePos ps sym f, P kv := by
  induction ps with
  | nil => intro kv hkv; simp [updatePos] at hkv
  | cons kv0 t ih =>
      obtain ⟨k, v⟩ := kv0
      intro kv hkv
      by_cases hk : k = sym
      · subst hk
        rw [updatePos, if_pos rfl] at hkv
        rcases List.mem_cons.mp hkv with heq | hmem
        · subst heq
          exact hf (k, v) (List.mem_cons_self _ _) rfl
        · exact hp kv (List.mem_cons_of_mem _ hmem)
      · rw [updatePos, if_neg hk] at hkv
        rcases List.mem_cons.mp hkv with heq | hmem
        · subst heq
          exact hp (k, v) (List.mem_cons_self _ _)
        · exact ih (fun x hx => hp x (List.mem_cons_of_mem _ hx))
            (fun x hx h => hf x (List.mem_cons_of_mem _ hx) h) kv hmem

lemma lookupKey_mem {β : Type} {ps : List (String × β)} {k : String} {v : β}
    (h : lookupKey ps k = some v) : (k, v) ∈ ps := by
  induction ps with
  | nil => simp [lookupKey] at h
  | cons kv t ih =>
      obtain ⟨k1, v1⟩ := kv
      by_cases hk : k1 = k
      · subst hk
        rw [lookupKey, if_pos rfl] at h
        obtain rfl : v1 = v := by injection h
        exact List.mem_cons_self _ _
      · rw [lookupKey, if_neg hk] at h
        exact List.mem_cons_of_mem _ (ih h)

lemma lookupKey_eq_none_iff {β : Type} (ps : List (String × β)) (k : String) :
    lookupKey ps k = Option.none ↔ k ∉ ps.map Prod.fst := by
  induction ps with
  | nil => simp [lookupKey]
  | cons kv t ih =>
      obtain ⟨k1, v1⟩ := kv
      by_cases hk : k1 = k
      · subst hk
        rw [lookupKey, if_pos rfl]
        simp
      · rw [lookupKey, if_neg hk]
        simp [ih, Ne.symm hk]

lemma lookupKey_of_mem_nodup {β : Type} {ps : List (String × β)} {k : String} {v : β}
    (hnd : (ps.map Prod.fst).Nodup) (hm : (k, v) ∈ ps) : lookupKey ps k = some v := by
  induction ps with
  | nil => simp at hm
  | cons kv t ih =>
      obtain ⟨k1, v1⟩ := kv
      simp only [List.map_cons, List.nodup_cons] at hnd
      rcases List.mem_cons.mp hm with heq | hmem
      · injection heq with h1 h2
        subst h1
        subst h2
        rw [lookupKey, if_pos rfl]
      · have hne : k1 ≠ k := by
          intro heq
          subst heq
          exact hnd.1 (List.mem_map.mpr ⟨(k1, v), hmem, rfl⟩)
        rw [lookupKey, if_neg hne]
        exact ih hnd.2 hmem

/-- A ledger holding 5 shares of "X" at cost basis 10 with cash 100. -/
def botHeld : TradingBot :=
  { cash := 100
    positions := [("X", { shares := 5, cost_basis := 10, entry_time := 0 })]
    total_value := 100
    trade_history := []
    risk_per_trade := 2/100 }

/-- C4 counterexample: `execute_trade("X", "BUY", price=1, amount=-5)` on
`botHeld` satisfies `amount × price ≤ cash`, yet it does not succeed: the
volume-weighted-average line divides by the merged share count
`5 + (-5) = 0` and raises `ZeroDivisionError`; no TradeRecord is appended or
returned (and the state is left partially mutated). -/
theorem execute_trade_buy_cex :
    (-5 : ℚ) * 1 ≤ botHeld.cash ∧
    (execute_trade 0 botHeld "X" "BUY" 1 (-5)).2 = TradeResult.raised PyErr.zeroDivisionError ∧
    (execute_trade 0 botHeld "X" "BUY" 1 (-5)).1.trade_history = [] := by
  have hlk : lookupKey botHeld.positions "X" =
      some { shares := 5, cost_basis := 10, entry_time := 0 } := by
    simp [botHeld, lookupKey]
  refine ⟨by norm_num [botHeld], ?_, ?_⟩
  · rw [execute_trade, if_pos ⟨rfl, by norm_num [botHeld]⟩]
    norm_num [botHeld, lookupKey, updatePos]
  · rw [execute_trade, if_pos ⟨rfl, by norm_num [botHeld]⟩]
    norm_num [botHeld, lookupKey, updatePos]

/-- C4 amended: a BUY with `amount × price ≤ cash` succeeds — cash drops by
`amount × price`, a held position merges shares and recomputes the
volume-weighted cost basis, an unheld symbol gets a fresh position at cost
basis `price`, and exactly one BUY TradeRecord is appended and returned —
provided additionally that for a held position the merged share count
`oldShares + amount` is nonzero (otherwise the cost-basis division raises
`ZeroDivisionError`; with the positive amounts of normal use this proviso
always holds). -/
theorem execute_trade_buy_spec (now : ℚ) (b : TradingBot) (sym : String) (price amount : ℚ)
    (hcash : amount * price ≤ b.cash)
    (hnz : ∀ pos, lookupKey b.positions sym = some pos → pos.shares + amount ≠ 0) :
    (execute_trade now b sym "BUY" price amount).2 =
      TradeResult.record { symbol := sym, action := "BUY", shares := amount, price := price,
                           value := amount * price, timestamp := now } ∧
    (execute_trade now b sym "BUY" price amount).1.cash = b.cash - amount * price ∧
    (execute_trade now b sym "BUY" price amount).1.trade_history =
      b.trade_history ++ [{ symbol := sym, action := "BUY", shares := amount, price := price,
                            value := amount * price, timestamp := now }] ∧
    (lookupKey b.positions sym = Option.none →
      (execute_trade now b sym "BUY" price amount).1.positions =
        b.positions ++ [(sym, { shares := amount, cost_basis := price, entry_time := now })]) ∧
    (∀ pos, lookupKey b.positions sym = some pos →
      lookupKey (execute_trade now b sym "BUY" price amount).1.positions sym =
        some { shares := pos.shares + amount
               cost_basis := (pos.cost_basis * pos.shares + amount * price) /
                 (pos.shares + amount)
               entry_time := pos.entry_time }) := by
  cases hlk : lookupKey b.positions sym with
  | none =>
      have hres : execute_trade now b sym "BUY" price amount =
          ({ b with
              cash := b.cash - amount * price
              positions := b.positions ++
                [(sym, { shares := amount, cost_basis := price, entry_time := now })]
              trade_history := b.trade_history ++
                [{ symbol := sym, action := "BUY", shares := amount, price := price,
                   value := amount * price, timestamp := now }] },
            TradeResult.record { symbol := sym, action := "BUY", shares := amount, price := price,
                                 value := amount * price, timestamp := now }) := by
        rw [execute_trade, if_pos ⟨rfl, hcash⟩]
        simp only [hlk]
      rw [hres]
      exact ⟨rfl, rfl, rfl, fun _ => rfl, fun pos hpos => Option.noConfusion hpos⟩
  | some pos =>
      have hnz2 : pos.shares + amount ≠ 0 := hnz pos hlk
      have hres : execute_trade now b sym "BUY" price amount =
          ({ b with
              cash := b.cash - amount * price
              positions := updatePos
                (updatePos b.positions sym (fun p => { p with shares := p.shares + amount }))
                sym (fun p => { p with cost_basis :=
                  (pos.cost_basis * (pos.shares + amount - amount) + amount * price) /
                    (pos.shares + amount) })
              trade_history := b.trade_history ++
                [{ symbol := sym, action := "BUY", shares := amount, price := price,
                   value := amount * price, timestamp := now }] },
            TradeResult.record { symbol := sym, action := "BUY", shares := amount, price := price,
                                 value := amount * price, timestamp := now }) := by
        rw [execute_trade, if_pos ⟨rfl, hcash⟩]
        simp only [hlk, if_neg hnz2]
      rw [hres]
      refine ⟨rfl, rfl, rfl, fun hnone => Option.noConfusion hnone, fun pos2 hpos2 => ?_⟩
      obtain rfl : pos = pos2 := by injection hpos2
      rw [updatePos_updatePos, lookupKey_updatePos, hlk]
      have hsub : pos.shares + amount - amount = pos.shares := by ring
      rw [hsub]
      simp

/-- The ledger after the first `executeTrade("X","BUY",price=10,amount=5)`
from a fresh bot with cash 1000 (§8 example, first step). -/
def botSecondBuy : TradingBot :=
  { cash := 950
    positions := [("X", { shares := 5, cost_basis := 10, entry_time := 0 })]
    total_value := 1000
    trade_history := [{ symbol := "X", action := "BUY", shares := 5, price := 10,
                        value := 50, timestamp := 0 }]
    risk_per_trade := 2/100 }

/-- C4 witness: the second identical BUY of the §8 example leaves
shares = 10, costBasis = 10 and cash = 900. -/
theorem execute_trade_buy_spec_witness :
    (execute_trade 1 botSecondBuy "X" "BUY" 10 5).1.cash = 900 ∧
    lookupKey (execute_trade 1 botSecondBuy "X" "BUY" 10 5).1.positions "X" =
      some { shares := 10, cost_basis := 10, entry_time := 0 } := by
  have hlk : lookupKey botSecondBuy.positions "X" =
      some { shares := 5, cost_basis := 10, entry_time := 0 } := by
    simp [botSecondBuy, lookupKey]
  have hnz : ∀ pos, lookupKey botSecondBuy.positions "X" = some pos →
      pos.shares + 5 ≠ 0 := by
    intro pos hpos
    rw [hlk] at hpos
    obtain rfl : ({ shares := 5, cost_basis := 10, entry_time := 0 } : Position) = pos := by
      injection hpos
    norm_num
  have h := execute_trade_buy_spec 1 botSecondBuy "X" 10 5 (by norm_num [botSecondBuy]) hnz
  refine ⟨?_, ?_⟩
  · rw [h.2.1]
    norm_num [botSecondBuy]
  · have h5 := h.2.2.2.2 _ hlk
    rw [h5]
    norm_num

lemma lookupKey_filter_ne (ps : List (String × Position)) (sym : String) :
    lookupKey (ps.filter (fun kv => kv.1 ≠ sym)) sym = Option.none := by
  induction ps with
  | nil => rfl
  | cons kv t ih =>
      obtain ⟨k, v⟩ := kv
      simp only [ne_eq, decide_not] at ih ⊢
      by_cases hk : k = sym
      · simp [List.filter_cons, hk, ih]
      · simp [List.filter_cons, hk, lookupKey, ih]

/-- C5: a SELL of a held symbol succeeds for any requested amount: the
effective amount is `min(amount, shares)`; cash grows by exactly
`min(amount, shares) × price`; the position's shares drop by that clamped
amount and the entry is deleted entirely exactly when the remaining shares
are 0; the appended and returned TradeRecord carries the clamped amount and
the correspondingly recomputed value. -/
theorem execute_trade_sell_spec (now : ℚ) (b : TradingBot) (sym : String) (price amount : ℚ)
    (pos : Position) (hpos : lookupKey b.positions sym = some pos) :
    (execute_trade now b sym "SELL" price amount).2 =
      TradeResult.record { symbol := sym, action := "SELL",
                           shares := min amount pos.shares, price := price,
                           value := min amount pos.shares * price, timestamp := now } ∧
    (execute_trade now b sym "SELL" price amount).1.cash =
      b.cash + min amount pos.shares * price ∧
    (execute_trade now b sym "SELL" price amount).1.trade_history =
      b.trade_history ++ [{ symbol := sym, action := "SELL",
                            shares := min amount pos.shares, price := price,
                            value := min amount pos.shares * price, timestamp := now }] ∧
    (pos.shares - min amount pos.shares = 0 →
      lookupKey (execute_trade now b sym "SELL" price amount).1.positions sym =
        Option.none) ∧
    (pos.shares - min amount pos.shares ≠ 0 →
      lookupKey (execute_trade now b sym "SELL" price amount).1.positions sym =
        some { shares := pos.shares - min amount pos.shares,
               cost_basis := pos.cost_basis, entry_time := pos.entry_time }) := by
  have hne : ¬("SELL" = "BUY" ∧ amount * price ≤ b.cash) :=
    fun h => absurd h.1 (by decide)
  have hamt : (if amount > pos.shares then pos.shares else amount) = min amount pos.shares := by
    rw [min_def]
    split_ifs with h1 h2 <;> first | rfl | linarith
  by_cases hdel : pos.shares - min amount pos.shares = 0
  · have hres : execute_trade now b sym "SELL" price amount =
        ({ b with
            cash := b.cash + min amount pos.shares * price
            positions := b.positions.filter (fun kv => kv.1 ≠ sym)
            trade_history := b.trade_history ++
              [{ symbol := sym, action := "SELL", shares := min amount pos.shares,
                 price := price, value := min amount pos.shares * price, timestamp := now }] },
          TradeResult.record { symbol := sym, action := "SELL",
                               shares := min amount pos.shares, price := price,
                               value := min amount pos.shares * price, timestamp := now }) := by
      rw [execute_trade, if_neg hne, if_pos rfl]
      simp only [hpos, hamt, if_pos hdel]
    rw [hres]
    exact ⟨rfl, rfl, rfl, fun _ => lookupKey_filter_ne _ _, fun hcon => absurd hdel hcon⟩
  · have hres : execute_trade now b sym "SELL" price amount =
        ({ b with
            cash := b.cash + min amount pos.shares * price
            positions := updatePos b.positions sym
              (fun p => { p with shares := p.shares - min amount pos.shares })
            trade_history := b.trade_history ++
              [{ symbol := sym, action := "SELL", shares := min amount pos.shares,
                 price := price, value := min amount pos.shares * price, timestamp := now }] },
          TradeResult.record { symbol := sym, action := "SELL",
                               shares := min amount pos.shares, price := price,
                               value := min amount pos.shares * price, timestamp := now }) := by
      rw [execute_trade, if_neg hne, if_pos rfl]
      simp only [hpos, hamt, if_neg hdel]
    rw [hres]
    refine ⟨rfl, rfl, rfl, fun hcon => absurd hcon hdel, fun _ => ?_⟩
    rw [lookupKey_updatePos, hpos]
    simp

/-- A ledger holding only 5 shares of "X" at cost basis 10 (§8 example). -/
def botSell : TradingBot :=
  { cash := 0
    positions := [("X", { shares := 5, cost_basis := 10, entry_time := 0 })]
    total_value := 50
    trade_history := []
    risk_per_trade := 2/100 }

/-- C5 witness: `executeTrade("X","SELL",price=10,amount=100)` while holding
5 shares sells only 5, cash grows by 50, and the position is removed. -/
theorem execute_trade_sell_spec_witness :
    (execute_trade 0 botSell "X" "SELL" 10 100).1.cash = 50 ∧
    lookupKey (execute_trade 0 botSell "X" "SELL" 10 100).1.positions "X" =
      Option.none := by
  have hlk : lookupKey botSell.positions "X" =
      some { shares := 5, cost_basis := 10, entry_time := 0 } := by
    simp [botSell, lookupKey]
  have h := execute_trade_sell_spec 0 botSell "X" 10 100 _ hlk
  refine ⟨?_, ?_⟩
  · rw [h.2.1]
    norm_num [botSell]
  · exact h.2.2.2.1 (by norm_num)

/-- The positions-table invariant: unique symbols, strictly positive share
counts. -/
def GoodPositions (ps : List (String × Position)) : Prop :=
  (ps.map Prod.fst).Nodup ∧ ∀ kv ∈ ps, 0 < kv.2.shares

lemma execute_trade_preserves_good (now : ℚ) (b : TradingBot) (sym dec : String)
    (price amount : ℚ) (hg : GoodPositions b.positions)
    (hbuy : dec = "BUY" → 0 < amount) :
    GoodPositions (execute_trade now b sym dec price amount).1.positions := by
  rw [execute_trade]
  by_cases hA : dec = "BUY" ∧ amount * price ≤ b.cash
  · rw [if_pos hA]
    have hamt : 0 < amount := hbuy hA.1
    cases hlk : lookupKey b.positions sym with
    | none =>
        have hnotin : sym ∉ b.positions.map Prod.fst :=
          (lookupKey_eq_none_iff _ _).mp hlk
        simp only [hlk]
        constructor
        · simp only [List.map_append, List.map_cons, List.map_nil]
          rw [List.nodup_append]
          exact ⟨hg.1, List.nodup_singleton _, by simpa using hnotin⟩
        · intro kv hkv
          rcases List.mem_append.mp hkv with hmem | hnew
          · exact hg.2 kv hmem
          · obtain rfl : kv = (sym, { shares := amount, cost_basis := price, entry_time := now }) := by
              simpa using hnew
            exact hamt
    | some pos =>
        have hposmem := lookupKey_mem hlk
        have hp0 : 0 < pos.shares := hg.2 _ hposmem
        have hnz : pos.shares + amount ≠ 0 := (add_pos hp0 hamt).ne'
        simp only [hlk, if_neg hnz]
        rw [updatePos_updatePos]
        constructor
        · rw [keys_updatePos]
          exact hg.1
        · apply forall_mem_updatePos _ _ _ hg.2
          intro kv hkv _
          have hkvpos : 0 < kv.2.shares := hg.2 kv hkv
          show 0 < kv.2.shares + amount
          exact add_pos hkvpos hamt
  · rw [if_neg hA]
    by_cases hS : dec = "SELL"
    · rw [if_pos hS]
      cases hlk : lookupKey b.positions sym with
      | none => exact hg
      | some pos =>
          by_cases hdel : pos.shares - (if amount > pos.shares then pos.shares else amount) = 0
          · simp only [hlk, if_pos hdel]
            constructor
            · exact hg.1.sublist (List.Sublist.map _ (List.filter_sublist _))
            · intro kv hkv
              exact hg.2 kv (List.mem_of_mem_filter hkv)
          · simp only [hlk, if_neg hdel]
            constructor
            · rw [keys_updatePos]
              exact hg.1
            · apply forall_mem_updatePos _ _ _ hg.2
              intro kv hkv hk
              have hkv2 : kv.2 = pos := by
                have hl2 : lookupKey b.positions sym = some kv.2 := by
                  have : (sym, kv.2) ∈ b.positions := by
                    rw [← hk]
                    exact hkv
                  exact lookupKey_of_mem_nodup hg.1 this
                rw [hlk] at hl2
                injection hl2 with h2
                exact h2.symm
              show 0 < kv.2.shares - (if amount > pos.shares then pos.shares else amount)
              rw [hkv2]
              rcases le_or_lt amount pos.shares with hle | hgt
              · rw [if_neg (not_lt.mpr hle)] at hdel ⊢
                exact lt_of_le_of_ne (sub_nonneg.mpr hle) (Ne.symm hdel)
              · rw [if_pos hgt] at hdel
                simp at hdel
    · rw [if_neg hS]
      exact hg

/-- C8 counterexample: the claim fails for arbitrary arguments — a single
`execute_trade("X", "BUY", price=10, amount=0)` from the initial state
creates a position with exactly 0 shares that is never deleted, so a
reachable state has a present symbol with shares not greater than 0. -/
theorem positions_invariant_cex :
    ¬ (∀ (cmds : List Cmd), ∀ kv ∈ (runTrades (mkBot 1000) cmds).positions,
        0 < kv.2.shares) := by
  intro h
  have hmem : ("X", ({ shares := 0, cost_basis := 10, entry_time := 0 } : Position)) ∈
      (runTrades (mkBot 1000)
        [{ now := 0, symbol := "X", decision := "BUY", price := 10, amount := 0 }]).positions := by
    rw [runTrades, runTrades, execute_trade, if_pos ⟨rfl, by norm_num [mkBot]⟩]
    norm_num [mkBot, lookupKey]
  have h0 := h _ _ hmem
  norm_num at h0

/-- C8 amended: in every ledger state reachable from the initial state by a
sequence of `execute_trade` calls in which every BUY carries a strictly
positive amount (SELL amounts and all other arguments remain arbitrary),
every symbol present in positions has shares > 0 — zero-share positions are
deleted immediately, so presence in the mapping implies positive shares. -/
theorem positions_invariant (initial_capital : ℚ) (cmds : List Cmd)
    (hb : ∀ c ∈ cmds, c.decision = "BUY" → 0 < c.amount) :
    ∀ kv ∈ (runTrades (mkBot initial_capital) cmds).positions, 0 < kv.2.shares := by
  have main : ∀ (cs : List Cmd) (b : TradingBot), GoodPositions b.positions →
      (∀ c ∈ cs, c.decision = "BUY" → 0 < c.amount) →
      GoodPositions (runTrades b cs).positions := by
    intro cs
    induction cs with
    | nil => intro b hg _; exact hg
    | cons c t ih =>
        intro b hg hc
        rw [runTrades]
        exact ih _
          (execute_trade_preserves_good c.now b c.symbol c.decision c.price c.amount hg
            (hc c (List.mem_cons_self _ _)))
          (fun x hx => hc x (List.mem_cons_of_mem _ hx))
  exact (main cmds (mkBot initial_capital) ⟨List.nodup_nil, by simp [mkBot]⟩ hb).2

/-- C8 witness: after one BUY of 5 shares the single open position holds
5 > 0 shares. -/
theorem positions_invariant_witness :
    (0 : ℚ) < (Position.mk 5 10 0).shares := by
  have hmem : ("X", Position.mk 5 10 0) ∈
      (runTrades (mkBot 1000)
        [{ now := 0, symbol := "X", decision := "BUY", price := 10, amount := 5 }]).positions := by
    rw [runTrades, runTrades, execute_trade, if_pos ⟨rfl, by norm_num [mkBot]⟩]
    norm_num [mkBot, lookupKey]
  exact positions_invariant 1000
    [{ now := 0, symbol := "X", decision := "BUY", price := 10, amount := 5 }]
    (by
      intro c hc hd
      rcases List.mem_singleton.mp hc with rfl
      norm_num)
    _ hmem
